import Mathlib

/-!
Verification of the warehouse inventory service persistence layer
(`src/app.cpp`) against its natural-language specification.

The development shallowly embeds the data model and the store operations of
`app.cpp`:

* JSON documents (the nlohmann `json` values the program manipulates) become
  the inductive type `JVal`; JSON objects are association lists with
  key-based lookup and update, mirroring the key-unique map behaviour of
  `nlohmann::json`.
* The HTTP handler bodies (POST/PUT/DELETE on `/api/items`) become pure
  state transformers on the in-memory items collection.  The outcome of
  `save_db` is passed in as an explicit boolean oracle.  The handlers as
  written re-lock the non-recursive `db_mutex` inside `save_db` while
  already holding it; that locking behaviour is modelled separately
  (`runLocks` and the `..._locks` traces below), and the data-level
  semantics here describe the mutation each handler performs.
* `save_db` / `load_db` are modelled over an explicit tiny filesystem
  (`FS`), with C++ iostream semantics made explicit: a failed `ofstream`
  open or write sets the stream's failbit but throws nothing, while
  `std::filesystem::rename` reports failure by throwing (which `save_db`
  catches, returning false).
* The serializer and parser used by the program live in the vendored
  single-header `externals/json.hpp`, which is not part of `src/`; they are
  modelled from the spec ("UTF-8 encoded JSON object") as an executable
  serializer `dumpV` and parser `parseVal`/`parseJson`, with JSON numbers
  restricted to the integers the persisted format uses.
-/

namespace Warehouse

/-- JSON values, embedding `nlohmann::json` documents.  Objects are
association lists of fields; numbers are modelled as integers (the
persisted format stores string fields and integer epoch timestamps). -/
inductive JVal where
  | null
  | bool (b : Bool)
  | num (n : Int)
  | str (s : String)
  | arr (elems : List JVal)
  | obj (fields : List (String × JVal))
deriving Repr

mutual
/-- Structural size of a JSON value, used to drive inductions. -/
def sizeV : JVal → Nat
  | .null => 1
  | .bool _ => 1
  | .num _ => 1
  | .str _ => 1
  | .arr xs => 1 + sizeL xs
  | .obj kvs => 1 + sizeM kvs
def sizeL : List JVal → Nat
  | [] => 0
  | x :: xs => 1 + sizeV x + sizeL xs
def sizeM : List (String × JVal) → Nat
  | [] => 0
  | (_, v) :: kvs => 1 + sizeV v + sizeM kvs
end

theorem sizeV_pos (v : JVal) : 1 ≤ sizeV v := by
  cases v <;> simp [sizeV]

mutual
/-- Boolean structural equality on JSON values. -/
def beqV : JVal → JVal → Bool
  | .null, .null => true
  | .bool a, .bool b => a == b
  | .num a, .num b => a == b
  | .str a, .str b => a == b
  | .arr xs, .arr ys => beqL xs ys
  | .obj xs, .obj ys => beqM xs ys
  | _, _ => false
def beqL : List JVal → List JVal → Bool
  | [], [] => true
  | x :: xs, y :: ys => beqV x y && beqL xs ys
  | _, _ => false
def beqM : List (String × JVal) → List (String × JVal) → Bool
  | [], [] => true
  | (k, v) :: xs, (k2, v2) :: ys => k == k2 && beqV v v2 && beqM xs ys
  | _, _ => false
end

theorem beq_iff_eq_aux (n : Nat) :
    (∀ a b, sizeV a ≤ n → (beqV a b = true ↔ a = b)) ∧
    (∀ xs ys, sizeL xs ≤ n → (beqL xs ys = true ↔ xs = ys)) ∧
    (∀ xs ys, sizeM xs ≤ n → (beqM xs ys = true ↔ xs = ys)) := by
  induction n with
  | zero =>
    refine ⟨fun a b h => absurd (le_trans (sizeV_pos a) h) (by simp), ?_, ?_⟩
    · intro xs ys h
      match xs, ys with
      | [], [] => simp [beqL]
      | [], _ :: _ => simp [beqL]
      | x :: xs, _ => simp [sizeL] at h
    · intro xs ys h
      match xs, ys with
      | [], [] => simp [beqM]
      | [], _ :: _ => simp [beqM]
      | (k, v) :: xs, _ => simp [sizeM] at h
  | succ n ih =>
    obtain ⟨ihV, ihL, ihM⟩ := ih
    refine ⟨?_, ?_, ?_⟩
    · intro a b h
      cases a <;> cases b <;>
        simp_all [beqV, sizeV, Nat.add_le_add_iff_left]
      · exact ihL _ _ (by omega)
      · exact ihM _ _ (by omega)
    · intro xs ys h
      match xs, ys with
      | [], [] => simp [beqL]
      | [], _ :: _ => simp [beqL]
      | _ :: _, [] => simp [beqL]
      | x :: xs, y :: ys =>
        simp only [sizeL] at h
        simp [beqL, ihV x y (by omega), ihL xs ys (by omega)]
    · intro xs ys h
      match xs, ys with
      | [], [] => simp [beqM]
      | [], _ :: _ => simp [beqM]
      | _ :: _, [] => simp [beqM]
      | (k, v) :: xs, (k2, v2) :: ys =>
        simp only [sizeM] at h
        simp [beqM, ihV v v2 (by omega), ihM xs ys (by omega), and_assoc]
theorem beqV_iff_eq (a b : JVal) : beqV a b = true ↔ a = b :=
  (beq_iff_eq_aux (sizeV a)).1 a b le_rfl

instance : DecidableEq JVal := fun a b =>
  decidable_of_iff (beqV a b = true) (beqV_iff_eq a b)

/-- A JSON object's fields: the record representation of the program. -/
abbrev Obj := List (String × JVal)

/-- Field lookup on a JSON object (`j.contains(k)` / `j[k]` read access). -/
def getField (r : Obj) (k : String) : Option JVal :=
  match r with
  | [] => none
  | (k', v) :: rest => if k' = k then some v else getField rest k

/-- Field does exist (`j.contains(k)`). -/
def hasField (r : Obj) (k : String) : Bool :=
  (getField r k).isSome

/-- Field write on a JSON object (`j[k] = v`): overwrite the existing
binding of `k`, or append a fresh binding. -/
def setField (r : Obj) (k : String) (v : JVal) : Obj :=
  match r with
  | [] => [(k, v)]
  | (k', v') :: rest => if k' = k then (k, v) :: rest else (k', v') :: setField rest k v

theorem getField_setField_self (r : Obj) (k : String) (v : JVal) :
    getField (setField r k v) k = some v := by
  induction r with
  | nil => simp [setField, getField]
  | cons kv rest ih =>
    obtain ⟨k', v'⟩ := kv
    by_cases h : k' = k <;> simp [setField, getField, h, ih]

theorem getField_setField_ne (r : Obj) (k k' : String) (v : JVal) (h : k ≠ k') :
    getField (setField r k v) k' = getField r k' := by
  induction r with
  | nil => simp [setField, getField, h]
  | cons kv rest ih =>
    obtain ⟨k0, v0⟩ := kv
    by_cases h0 : k0 = k
    · subst h0
      simp [setField, getField, h]
    · simp [setField, getField, h0, ih]

/-- The decimal digit character for `k < 10`. -/
def natDigitChar (k : Nat) : Char := Char.ofNat (48 + k)

/-- Decimal digits of a natural number, least significant first; the fuel
argument makes the recursion structural. -/
def natToRevDigitsAux : Nat → Nat → List Char
  | 0, _ => []
  | _ + 1, 0 => []
  | fuel + 1, n + 1 => natDigitChar ((n + 1) % 10) :: natToRevDigitsAux fuel ((n + 1) / 10)

/-- Decimal digits of a natural number, least significant first. -/
def natToRevDigits (n : Nat) : List Char := natToRevDigitsAux n n

theorem natToRevDigitsAux_irrel :
    ∀ fuel1 fuel2 n, n ≤ fuel1 → n ≤ fuel2 →
      natToRevDigitsAux fuel1 n = natToRevDigitsAux fuel2 n := by
  intro fuel1
  induction fuel1 with
  | zero =>
    intro fuel2 n h1 h2
    obtain rfl : n = 0 := by omega
    cases fuel2 <;> simp [natToRevDigitsAux]
  | succ f1 ih =>
    intro fuel2 n h1 h2
    match n with
    | 0 => cases fuel2 <;> simp [natToRevDigitsAux]
    | m + 1 =>
      obtain ⟨f2, rfl⟩ : ∃ f2, fuel2 = f2 + 1 := ⟨fuel2 - 1, by omega⟩
      simp only [natToRevDigitsAux]
      rw [ih f2 ((m + 1) / 10) (by omega) (by omega)]

theorem natToRevDigits_zero : natToRevDigits 0 = [] := rfl

theorem natToRevDigits_succ (m : Nat) :
    natToRevDigits (m + 1) =
      natDigitChar ((m + 1) % 10) :: natToRevDigits ((m + 1) / 10) := by
  show natToRevDigitsAux (m + 1) (m + 1) = _
  simp only [natToRevDigitsAux]
  rw [natToRevDigitsAux_irrel m ((m + 1) / 10) ((m + 1) / 10) (by omega) le_rfl]
  rfl

/-- Decimal representation of a natural number, embedding `std::to_string`. -/
def natDigits (n : Nat) : List Char :=
  if n = 0 then ['0'] else (natToRevDigits n).reverse

/-- Test for an ASCII decimal digit. -/
def isDigitC (c : Char) : Bool := 48 ≤ c.toNat && c.toNat ≤ 57

/-- Numeric value of an ASCII decimal digit. -/
def digitVal (c : Char) : Nat := c.toNat - 48

/-- Value of a string of decimal digits, most significant first. -/
def valDigits (ds : List Char) : Nat :=
  ds.foldl (fun a c => a * 10 + digitVal c) 0

theorem isDigitC_natDigitChar {k : Nat} (h : k < 10) :
    isDigitC (natDigitChar k) = true := by
  interval_cases k <;> decide

theorem digitVal_natDigitChar {k : Nat} (h : k < 10) :
    digitVal (natDigitChar k) = k := by
  interval_cases k <;> decide

theorem mem_natToRevDigits_digit :
    ∀ n, ∀ c ∈ natToRevDigits n, isDigitC c = true := by
  intro n
  induction n using Nat.strong_induction_on with
  | _ n ih =>
    match n with
    | 0 => simp [natToRevDigits_zero]
    | m + 1 =>
      intro c hc
      rw [natToRevDigits_succ] at hc
      rcases List.mem_cons.mp hc with rfl | h
      · exact isDigitC_natDigitChar (Nat.mod_lt _ (by omega))
      · exact ih ((m + 1) / 10) (Nat.div_lt_self (by omega) (by omega)) c h

theorem mem_natDigits_digit (n : Nat) : ∀ c ∈ natDigits n, isDigitC c = true := by
  intro c hc
  unfold natDigits at hc
  by_cases h : n = 0
  · simp [h] at hc
    subst hc
    decide
  · simp [h] at hc
    exact mem_natToRevDigits_digit n c hc

theorem foldr_natToRevDigits :
    ∀ n, (natToRevDigits n).foldr (fun c a => a * 10 + digitVal c) 0 = n := by
  intro n
  induction n using Nat.strong_induction_on with
  | _ n ih =>
    match n with
    | 0 => simp [natToRevDigits_zero]
    | m + 1 =>
      rw [natToRevDigits_succ]
      simp only [List.foldr_cons]
      rw [ih ((m + 1) / 10) (Nat.div_lt_self (by omega) (by omega)),
        digitVal_natDigitChar (Nat.mod_lt _ (by omega))]
      omega

theorem valDigits_natDigits (n : Nat) : valDigits (natDigits n) = n := by
  unfold natDigits
  by_cases h : n = 0
  · subst h
    decide
  · simp only [h, if_false, valDigits, List.foldl_reverse]
    have := foldr_natToRevDigits n
    simpa using this

theorem natDigits_injective {a b : Nat} (h : natDigits a = natDigits b) : a = b := by
  have := valDigits_natDigits a
  rw [h, valDigits_natDigits] at this
  omega

theorem digits_sep_split (sep : Char) (hsep : isDigitC sep = false) :
    ∀ d1 d2 t1 t2 : List Char, (∀ c ∈ d1, isDigitC c = true) →
      (∀ c ∈ d2, isDigitC c = true) →
      d1 ++ sep :: t1 = d2 ++ sep :: t2 → d1 = d2 ∧ t1 = t2 := by
  intro d1
  induction d1 with
  | nil =>
    intro d2 t1 t2 _ h2 heq
    match d2 with
    | [] => simpa using heq
    | c :: d2 =>
      simp only [List.nil_append, List.cons_append, List.cons.injEq] at heq
      rw [← heq.1] at h2
      rw [h2 sep (by simp)] at hsep
      exact absurd hsep (by simp)
  | cons c d1 ih =>
    intro d2 t1 t2 h1 h2 heq
    match d2 with
    | [] =>
      simp only [List.nil_append, List.cons_append, List.cons.injEq] at heq
      rw [heq.1] at h1
      rw [h1 sep (by simp)] at hsep
      exact absurd hsep (by simp)
    | c2 :: d2 =>
      simp only [List.cons_append, List.cons.injEq] at heq
      obtain ⟨rfl, heq⟩ := heq
      obtain ⟨hd, ht⟩ := ih d2 t1 t2 (fun x hx => h1 x (by simp [hx]))
        (fun x hx => h2 x (by simp [hx])) heq
      exact ⟨by rw [hd], ht⟩

/-- The backend identifier generator (`make_backend_id`, `app.cpp` lines
67-74): concatenates the millisecond clock reading and the value of the
atomic in-process counter. -/
def make_backend_id (ms counter : Nat) : String :=
  "b-" ++ String.mk (natDigits ms) ++ "-" ++ String.mk (natDigits counter)

theorem make_backend_id_inj_counter {ms1 ms2 c1 c2 : Nat} (h : c1 ≠ c2) :
    make_backend_id ms1 c1 ≠ make_backend_id ms2 c2 := by
  intro heq
  have hdata : ('b' :: '-' :: (natDigits ms1 ++ '-' :: natDigits c1)) =
      ('b' :: '-' :: (natDigits ms2 ++ '-' :: natDigits c2)) := by
    have := congrArg String.data heq
    simpa [make_backend_id, String.data_append] using this
  simp only [List.cons.injEq, true_and] at hdata
  obtain ⟨-, hrest⟩ := digits_sep_split '-' (by decide) _ _ _ _
    (mem_natDigits_digit ms1) (mem_natDigits_digit ms2) hdata
  exact h (natDigits_injective hrest)

/-- The hexadecimal digit character for `k < 16` (lowercase letters). -/
def hexDigitChar (k : Nat) : Char :=
  if k < 10 then Char.ofNat (48 + k) else Char.ofNat (87 + k)

/-- Modelled from the spec: JSON string escaping of the serializer inside
the vendored `externals/json.hpp` (absent from `src/`), per the spec's
"UTF-8 encoded JSON" backing format: quote, backslash and control
characters are escaped, everything else is emitted verbatim. -/
def escapeChar (c : Char) : List Char :=
  if c = '"' then ['\\', '"']
  else if c = '\\' then ['\\', '\\']
  else if c.toNat = 8 then ['\\', 'b']
  else if c.toNat = 9 then ['\\', 't']
  else if c.toNat = 10 then ['\\', 'n']
  else if c.toNat = 12 then ['\\', 'f']
  else if c.toNat = 13 then ['\\', 'r']
  else if c.toNat < 32 then
    let t := c.toNat
    '\\' :: 'u' :: '0' :: '0' :: hexDigitChar (t / 16) :: [hexDigitChar (t % 16)]
  else [c]

/-- Escape every character of a string body. -/
def escapeList : List Char → List Char
  | [] => []
  | c :: cs => escapeChar c ++ escapeList cs

/-- Serialization of an object key. -/
def dumpKey (k : String) : List Char := '"' :: (escapeList k.data ++ ['"'])

/-- Serialization of a JSON integer. -/
def dumpInt (n : Int) : List Char :=
  if n < 0 then '-' :: natDigits n.natAbs else natDigits n.toNat

mutual
/-- Modelled from the spec: the JSON serializer of the vendored
`externals/json.hpp` (absent from `src/`), producing the spec's "UTF-8
encoded JSON" persisted document. -/
def dumpV : JVal → List Char
  | .null => "null".data
  | .bool true => "true".data
  | .bool false => "false".data
  | .num n => dumpInt n
  | .str s => '"' :: (escapeList s.data ++ ['"'])
  | .arr xs => '[' :: (dumpL xs ++ [']'])
  | .obj kvs => '\x7b' :: (dumpM kvs ++ ['\x7d'])
def dumpL : List JVal → List Char
  | [] => []
  | [x] => dumpV x
  | x :: y :: ys => dumpV x ++ ',' :: dumpL (y :: ys)
def dumpM : List (String × JVal) → List Char
  | [] => []
  | [(k, v)] => dumpKey k ++ ':' :: dumpV v
  | (k, v) :: kv :: kvs => (dumpKey k ++ ':' :: dumpV v) ++ ',' :: dumpM (kv :: kvs)
end

/-- Serialized form of a JSON document, as written to the backing file. -/
def dumpJson (v : JVal) : String := String.mk (dumpV v)

/-- Test for JSON insignificant whitespace. -/
def isWs (c : Char) : Bool := c = ' ' || c = '\n' || c = '\t' || c = '\r'

/-- Drop leading whitespace. -/
def skipWs : List Char → List Char
  | [] => []
  | c :: cs => if isWs c then skipWs cs else c :: cs

/-- Check the head character of the remaining input. -/
def headIs (c : Char) : List Char → Bool
  | [] => false
  | c' :: _ => c' = c

/-- Consume an expected literal character sequence. -/
def expectLit : List Char → List Char → Option (List Char)
  | [], cs => some cs
  | _ :: _, [] => none
  | e :: es, c :: cs => if c = e then expectLit es cs else none

/-- Value of a hexadecimal digit character. -/
def hexVal (c : Char) : Option Nat :=
  if 48 ≤ c.toNat ∧ c.toNat ≤ 57 then some (c.toNat - 48)
  else if 97 ≤ c.toNat ∧ c.toNat ≤ 102 then some (c.toNat - 87)
  else if 65 ≤ c.toNat ∧ c.toNat ≤ 70 then some (c.toNat - 55)
  else none

/-- Modelled from the spec: JSON string-literal body parsing (everything
after the opening quote) of the parser inside the vendored
`externals/json.hpp` (absent from `src/`). -/
def parseStrBody : List Char → Option (List Char × List Char)
  | [] => none
  | c :: rest =>
    if c = '"' then some ([], rest)
    else if c = '\\' then
      match rest with
      | [] => none
      | e :: rest2 =>
        if e = '"' then (parseStrBody rest2).map fun p => ('"' :: p.1, p.2)
        else if e = '\\' then (parseStrBody rest2).map fun p => ('\\' :: p.1, p.2)
        else if e = 'b' then (parseStrBody rest2).map fun p => (Char.ofNat 8 :: p.1, p.2)
        else if e = 't' then (parseStrBody rest2).map fun p => (Char.ofNat 9 :: p.1, p.2)
        else if e = 'n' then (parseStrBody rest2).map fun p => (Char.ofNat 10 :: p.1, p.2)
        else if e = 'f' then (parseStrBody rest2).map fun p => (Char.ofNat 12 :: p.1, p.2)
        else if e = 'r' then (parseStrBody rest2).map fun p => (Char.ofNat 13 :: p.1, p.2)
        else if e = 'u' then
          match rest2 with
          | a :: b :: c2 :: d :: rest3 =>
            match hexVal a, hexVal b, hexVal c2, hexVal d with
            | some ha, some hb, some hc, some hd =>
              (parseStrBody rest3).map fun p =>
                (Char.ofNat (((ha * 16 + hb) * 16 + hc) * 16 + hd) :: p.1, p.2)
            | _, _, _, _ => none
          | _ => none
        else none
    else if c.toNat < 32 then none
    else (parseStrBody rest).map fun p => (c :: p.1, p.2)

/-- Accumulate a run of decimal digits. -/
def readDigits : Nat → List Char → Nat × List Char
  | acc, [] => (acc, [])
  | acc, c :: cs => if isDigitC c then readDigits (acc * 10 + digitVal c) cs else (acc, c :: cs)

mutual
/-- Modelled from the spec: the recursive-descent JSON parser of the
vendored `externals/json.hpp` (absent from `src/`), with an explicit fuel
argument bounding the recursion depth. -/
def parseVal : Nat → List Char → Option (JVal × List Char)
  | 0, _ => none
  | fuel + 1, cs =>
    match skipWs cs with
    | [] => none
    | c :: rest =>
      if c = '"' then (parseStrBody rest).map fun p => (.str (String.mk p.1), p.2)
      else if c = 'n' then (expectLit ['u', 'l', 'l'] rest).map fun r => (.null, r)
      else if c = 't' then (expectLit ['r', 'u', 'e'] rest).map fun r => (.bool true, r)
      else if c = 'f' then (expectLit ['a', 'l', 's', 'e'] rest).map fun r => (.bool false, r)
      else if c = '[' then
        let r1 := skipWs rest
        if headIs ']' r1 then some (.arr [], r1.tail)
        else (parseItems fuel r1).map fun p => (.arr p.1, p.2)
      else if c = '\x7b' then
        let r1 := skipWs rest
        if headIs '\x7d' r1 then some (.obj [], r1.tail)
        else (parseMembers fuel r1).map fun p => (.obj p.1, p.2)
      else if c = '-' then
        match rest with
        | d :: rest2 =>
          if isDigitC d then
            let p := readDigits (digitVal d) rest2
            some (.num (-(p.1 : Int)), p.2)
          else none
        | [] => none
      else if isDigitC c then
        let p := readDigits (digitVal c) rest
        some (.num (p.1 : Int), p.2)
      else none
def parseItems : Nat → List Char → Option (List JVal × List Char)
  | 0, _ => none
  | fuel + 1, cs =>
    match parseVal fuel cs with
    | none => none
    | some (v, r) =>
      let r1 := skipWs r
      if headIs ',' r1 then (parseItems fuel r1.tail).map fun p => (v :: p.1, p.2)
      else if headIs ']' r1 then some ([v], r1.tail)
      else none
def parseMembers : Nat → List Char → Option (Obj × List Char)
  | 0, _ => none
  | fuel + 1, cs =>
    match skipWs cs with
    | [] => none
    | c :: rest =>
      if c = '"' then
        match parseStrBody rest with
        | none => none
        | some (k, r) =>
          let r1 := skipWs r
          if headIs ':' r1 then
            match parseVal fuel r1.tail with
            | none => none
            | some (v, r2) =>
              let r3 := skipWs r2
              if headIs ',' r3 then
                (parseMembers fuel r3.tail).map fun p => ((String.mk k, v) :: p.1, p.2)
              else if headIs '\x7d' r3 then some ([(String.mk k, v)], r3.tail)
              else none
          else none
      else none
end

/-- Modelled from the spec: whole-document JSON parsing as performed by
`operator>>` of the vendored `externals/json.hpp` (absent from `src/`). -/
def parseJson (s : String) : Option JVal :=
  match parseVal (s.length + 1) s.data with
  | some (v, rest) => if (skipWs rest).isEmpty then some v else none
  | none => none

theorem skipWs_cons (c : Char) (cs : List Char) (h : isWs c = false) :
    skipWs (c :: cs) = c :: cs := by
  simp [skipWs, h]

theorem expectLit_append (es rest : List Char) :
    expectLit es (es ++ rest) = some rest := by
  induction es with
  | nil => rfl
  | cons e es ih => simp [expectLit, ih]

theorem hexVal_hexDigitChar {k : Nat} (h : k < 16) :
    hexVal (hexDigitChar k) = some k := by
  interval_cases k <;> decide

theorem parseStrBody_escapeChar (c : Char) (rest : List Char) :
    parseStrBody (escapeChar c ++ rest) =
      (parseStrBody rest).map fun p => (c :: p.1, p.2) := by
  unfold escapeChar
  split_ifs with h1 h2 h3 h4 h5 h6 h7 h8
  · subst h1
    simp only [List.cons_append, List.nil_append]
    rw [parseStrBody.eq_def]
    simp
  · subst h2
    simp only [List.cons_append, List.nil_append]
    rw [parseStrBody.eq_def]
    simp
  · have hc : Char.ofNat 8 = c := by rw [← h3, Char.ofNat_toNat]
    simp only [List.cons_append, List.nil_append]
    rw [parseStrBody.eq_def]
    simp
    refine congrArg (fun f => Option.map f (parseStrBody rest)) ?_
    funext p
    rw [hc]
  · have hc : Char.ofNat 9 = c := by rw [← h4, Char.ofNat_toNat]
    simp only [List.cons_append, List.nil_append]
    rw [parseStrBody.eq_def]
    simp
    refine congrArg (fun f => Option.map f (parseStrBody rest)) ?_
    funext p
    rw [hc]
  · have hc : Char.ofNat 10 = c := by rw [← h5, Char.ofNat_toNat]
    simp only [List.cons_append, List.nil_append]
    rw [parseStrBody.eq_def]
    simp
    refine congrArg (fun f => Option.map f (parseStrBody rest)) ?_
    funext p
    rw [hc]
  · have hc : Char.ofNat 12 = c := by rw [← h6, Char.ofNat_toNat]
    simp only [List.cons_append, List.nil_append]
    rw [parseStrBody.eq_def]
    simp
    refine congrArg (fun f => Option.map f (parseStrBody rest)) ?_
    funext p
    rw [hc]
  · have hc : Char.ofNat 13 = c := by rw [← h7, Char.ofNat_toNat]
    simp only [List.cons_append, List.nil_append]
    rw [parseStrBody.eq_def]
    simp
    refine congrArg (fun f => Option.map f (parseStrBody rest)) ?_
    funext p
    rw [hc]
  · have hlo : c.toNat / 16 < 16 := by omega
    have hhi : c.toNat % 16 < 16 := by omega
    simp only [List.cons_append, List.nil_append]
    rw [parseStrBody.eq_def]
    simp [show hexVal '0' = some 0 from by decide, hexVal_hexDigitChar hlo,
      hexVal_hexDigitChar hhi]
    refine congrArg (fun f => Option.map f (parseStrBody rest)) ?_
    funext p
    rw [show c.toNat / 16 * 16 + c.toNat % 16 = c.toNat from by omega, Char.ofNat_toNat]
  · simp only [List.cons_append, List.nil_append]
    rw [parseStrBody.eq_def]
    simp [h1, h2, h8]

theorem parseStrBody_escapeList (cs rest : List Char) :
    parseStrBody (escapeList cs ++ '"' :: rest) = some (cs, rest) := by
  induction cs with
  | nil =>
    simp only [escapeList, List.nil_append]
    rw [parseStrBody.eq_def]
    simp
  | cons c cs ih =>
    rw [escapeList, List.append_assoc, parseStrBody_escapeChar, ih]
    rfl

/-- The remaining input does not begin with a decimal digit (so a digit run
just before it ends exactly there). -/
def noDigitHead : List Char → Bool
  | [] => true
  | c :: _ => !(isDigitC c)

theorem noDigitHead_cons (c : Char) (l : List Char) :
    noDigitHead (c :: l) = !(isDigitC c) := rfl

theorem foldl_digits_acc (ds : List Char) :
    ∀ a : Nat, ds.foldl (fun x c => x * 10 + digitVal c) a =
      a * 10 ^ ds.length + valDigits ds := by
  induction ds with
  | nil => simp [valDigits]
  | cons c ds ih =>
    intro a
    have hv : valDigits (c :: ds) = digitVal c * 10 ^ ds.length + valDigits ds := by
      simp only [valDigits, List.foldl_cons, Nat.zero_mul, Nat.zero_add]
      exact ih (digitVal c)
    simp only [List.foldl_cons, List.length_cons, hv]
    rw [ih (a * 10 + digitVal c)]
    ring

theorem readDigits_append (ds : List Char) :
    ∀ (rest : List Char) (acc : Nat), (∀ c ∈ ds, isDigitC c = true) →
      noDigitHead rest = true →
      readDigits acc (ds ++ rest) = (acc * 10 ^ ds.length + valDigits ds, rest) := by
  induction ds with
  | nil =>
    intro rest acc _ hrest
    match rest with
    | [] => simp [readDigits, valDigits]
    | c :: cs =>
      rw [noDigitHead_cons, Bool.not_eq_eq_eq_not, Bool.not_true] at hrest
      simp [readDigits, hrest, valDigits]
  | cons c ds ih =>
    intro rest acc hds hrest
    have hc : isDigitC c = true := hds c (by simp)
    have hv : valDigits (c :: ds) = digitVal c * 10 ^ ds.length + valDigits ds := by
      simp only [valDigits, List.foldl_cons, Nat.zero_mul, Nat.zero_add]
      exact foldl_digits_acc ds (digitVal c)
    simp only [List.cons_append, readDigits, hc, if_true, List.append_eq]
    rw [ih rest (acc * 10 + digitVal c) (fun x hx => hds x (by simp [hx])) hrest]
    simp only [List.length_cons, hv, Prod.mk.injEq, and_true]
    ring

theorem natDigits_cons (n : Nat) : ∃ d ds, natDigits n = d :: ds := by
  unfold natDigits
  by_cases h : n = 0
  · exact ⟨'0', [], by simp [h]⟩
  · obtain ⟨m, rfl⟩ := Nat.exists_eq_succ_of_ne_zero h
    rw [natToRevDigits_succ]
    simp only [h, if_false]
    have : (natDigitChar ((m + 1) % 10) :: natToRevDigits ((m + 1) / 10)).reverse ≠ [] := by
      simp
    match hcase : (natDigitChar ((m + 1) % 10) :: natToRevDigits ((m + 1) / 10)).reverse with
    | [] => exact absurd hcase this
    | d :: ds => exact ⟨d, ds, rfl⟩

theorem readDigits_natDigits {n : Nat} {d : Char} {ds : List Char}
    (hds : natDigits n = d :: ds) (rest : List Char) (hrest : noDigitHead rest = true) :
    readDigits (digitVal d) (ds ++ rest) = (n, rest) := by
  have hdig : ∀ c ∈ ds, isDigitC c = true := fun c hc =>
    mem_natDigits_digit n c (by rw [hds]; simp [hc])
  rw [readDigits_append ds rest (digitVal d) hdig hrest]
  have hv : valDigits (d :: ds) = digitVal d * 10 ^ ds.length + valDigits ds := by
    simp only [valDigits, List.foldl_cons, Nat.zero_mul, Nat.zero_add]
    exact foldl_digits_acc ds (digitVal d)
  have := valDigits_natDigits n
  rw [hds, hv] at this
  simp [this]

theorem mk_data (s : String) : String.mk s.data = s := rfl

theorem isDigitC_char_facts {c : Char} (h : isDigitC c = true) :
    isWs c = false ∧ c ≠ '"' ∧ c ≠ 'n' ∧ c ≠ 't' ∧ c ≠ 'f' ∧ c ≠ '[' ∧
      c ≠ '\x7b' ∧ c ≠ '-' ∧ c ≠ ']' ∧ c ≠ '\x7d' ∧ c ≠ ',' := by
  simp only [isDigitC, Bool.and_eq_true, decide_eq_true_eq] at h
  have hne : ∀ d : Char, d.toNat < 48 ∨ 57 < d.toNat → c ≠ d := by
    intro d hd hcd
    subst hcd
    omega
  refine ⟨?_, hne '"' (by decide), hne 'n' (by decide), hne 't' (by decide),
    hne 'f' (by decide), hne '[' (by decide), hne '\x7b' (by decide),
    hne '-' (by decide), hne ']' (by decide), hne '\x7d' (by decide),
    hne ',' (by decide)⟩
  simp [isWs, hne ' ' (by decide), hne '\n' (by decide), hne '\t' (by decide),
    hne '\r' (by decide)]

theorem dumpV_head (v : JVal) :
    ∃ c cs, dumpV v = c :: cs ∧ isWs c = false ∧ c ≠ ']' ∧ c ≠ '\x7d' := by
  cases v with
  | null => exact ⟨'n', ['u', 'l', 'l'], by decide, by decide, by decide, by decide⟩
  | bool b =>
    cases b
    · exact ⟨'f', ['a', 'l', 's', 'e'], by decide, by decide, by decide, by decide⟩
    · exact ⟨'t', ['r', 'u', 'e'], by decide, by decide, by decide, by decide⟩
  | str s =>
    exact ⟨'"', escapeList s.data ++ ['"'], by simp [dumpV], by decide, by decide, by decide⟩
  | arr xs =>
    exact ⟨'[', dumpL xs ++ [']'], by simp [dumpV], by decide, by decide, by decide⟩
  | obj kvs =>
    exact ⟨'\x7b', dumpM kvs ++ ['\x7d'], by simp [dumpV], by decide, by decide, by decide⟩
  | num n =>
    by_cases hneg : n < 0
    · exact ⟨'-', natDigits n.natAbs, by simp [dumpV, dumpInt, hneg], by decide,
        by decide, by decide⟩
    · obtain ⟨d, ds, hds⟩ := natDigits_cons n.toNat
      have hd : isDigitC d = true := mem_natDigits_digit _ d (by rw [hds]; simp)
      obtain ⟨hw, -, -, -, -, -, -, -, hr1, hr2, -⟩ := isDigitC_char_facts hd
      exact ⟨d, ds, by simp [dumpV, dumpInt, hneg, hds], hw, hr1, hr2⟩

theorem dumpL_cons_append (x : JVal) (xs : List JVal) (tail : List Char) :
    ∃ t, dumpL (x :: xs) ++ tail = dumpV x ++ t := by
  cases xs with
  | nil => exact ⟨tail, by simp [dumpL]⟩
  | cons y ys =>
    exact ⟨',' :: (dumpL (y :: ys) ++ tail), by simp [dumpL, List.append_assoc]⟩

theorem parse_dump_aux : ∀ fuel : Nat,
    (∀ v rest, sizeV v ≤ fuel → noDigitHead rest = true →
      parseVal fuel (dumpV v ++ rest) = some (v, rest)) ∧
    (∀ xs rest, xs ≠ [] → sizeL xs ≤ fuel →
      parseItems fuel (dumpL xs ++ ']' :: rest) = some (xs, rest)) ∧
    (∀ kvs rest, kvs ≠ [] → sizeM kvs ≤ fuel →
      parseMembers fuel (dumpM kvs ++ '\x7d' :: rest) = some (kvs, rest)) := by
  intro fuel
  induction fuel with
  | zero =>
    refine ⟨fun v rest hv _ => absurd (le_trans (sizeV_pos v) hv) (by simp),
      fun xs rest hne hs => ?_, fun kvs rest hne hs => ?_⟩
    · obtain ⟨x, xs, rfl⟩ := List.exists_cons_of_ne_nil hne
      simp [sizeL] at hs
    · obtain ⟨kv, kvs, rfl⟩ := List.exists_cons_of_ne_nil hne
      obtain ⟨k, v⟩ := kv
      simp [sizeM] at hs
  | succ fuel ih =>
    obtain ⟨ihV, ihL, ihM⟩ := ih
    refine ⟨fun v rest hv hrest => ?_, fun xs rest hne hs => ?_,
      fun kvs rest hne hs => ?_⟩
    · cases v with
      | null =>
        rw [show dumpV .null = ['n', 'u', 'l', 'l'] from by decide]
        simp only [List.cons_append, List.nil_append, parseVal]
        rw [skipWs_cons _ _ (by decide)]
        simp [expectLit]
      | bool b =>
        cases b
        · rw [show dumpV (.bool false) = ['f', 'a', 'l', 's', 'e'] from by decide]
          simp only [List.cons_append, List.nil_append, parseVal]
          rw [skipWs_cons _ _ (by decide)]
          simp [expectLit]
        · rw [show dumpV (.bool true) = ['t', 'r', 'u', 'e'] from by decide]
          simp only [List.cons_append, List.nil_append, parseVal]
          rw [skipWs_cons _ _ (by decide)]
          simp [expectLit]
      | str s =>
        rw [show dumpV (.str s) = '"' :: (escapeList s.data ++ ['"']) from by simp [dumpV]]
        simp only [List.cons_append, List.append_assoc, List.singleton_append, parseVal]
        rw [skipWs_cons _ _ (by decide)]
        simp [parseStrBody_escapeList, mk_data]
      | num n =>
        by_cases hneg : n < 0
        · rw [show dumpV (.num n) = '-' :: natDigits n.natAbs
            from by simp [dumpV, dumpInt, hneg]]
          obtain ⟨d, ds, hds⟩ := natDigits_cons n.natAbs
          have hd : isDigitC d = true := mem_natDigits_digit _ d (by rw [hds]; simp)
          rw [hds]
          simp only [List.cons_append, parseVal]
          rw [skipWs_cons _ _ (by decide)]
          simp [hd, readDigits_natDigits hds rest hrest, abs_of_neg hneg, neg_neg]
        · rw [show dumpV (.num n) = natDigits n.toNat from by simp [dumpV, dumpInt, hneg]]
          obtain ⟨d, ds, hds⟩ := natDigits_cons n.toNat
          have hd : isDigitC d = true := mem_natDigits_digit _ d (by rw [hds]; simp)
          obtain ⟨hw, hq, hn, ht, hf, hlb, hob, hm, -, -, -⟩ := isDigitC_char_facts hd
          rw [hds]
          simp only [List.cons_append, parseVal]
          rw [skipWs_cons _ _ hw]
          simp [hq, hn, ht, hf, hlb, hob, hm, hd, readDigits_natDigits hds rest hrest,
            show ((n.toNat : Nat) : Int) = n from by omega]
      | arr xs =>
        rw [show dumpV (.arr xs) = '[' :: (dumpL xs ++ [']']) from by simp [dumpV]]
        simp only [List.cons_append, List.append_assoc, List.singleton_append, parseVal]
        rw [skipWs_cons _ _ (by decide)]
        cases xs with
        | nil =>
          rw [show dumpL [] = ([] : List Char) from by simp [dumpL]]
          simp only [List.nil_append]
          rw [skipWs_cons _ _ (by decide)]
          simp [headIs]
        | cons x xs =>
          simp only [sizeV, sizeL] at hv
          obtain ⟨c, cs, hcd, hws, hbr1, hbr2⟩ := dumpV_head x
          obtain ⟨t, htail⟩ := dumpL_cons_append x xs (']' :: rest)
          have hskip : skipWs (dumpL (x :: xs) ++ ']' :: rest) =
              dumpL (x :: xs) ++ ']' :: rest := by
            rw [htail, hcd, List.cons_append, skipWs_cons _ _ hws, ← List.cons_append, ← hcd]
          have hhead : headIs ']' (dumpL (x :: xs) ++ ']' :: rest) = false := by
            rw [htail, hcd, List.cons_append]
            simp [headIs, hbr1]
          simp [hskip, hhead, ihL (x :: xs) rest (by simp) (by simp [sizeL]; omega)]
      | obj kvs =>
        rw [show dumpV (.obj kvs) = '\x7b' :: (dumpM kvs ++ ['\x7d']) from by simp [dumpV]]
        simp only [List.cons_append, List.append_assoc, List.singleton_append, parseVal]
        rw [skipWs_cons _ _ (by decide)]
        cases kvs with
        | nil =>
          rw [show dumpM [] = ([] : List Char) from by simp [dumpM]]
          simp only [List.nil_append]
          rw [skipWs_cons _ _ (by decide)]
          simp [headIs]
        | cons kv kvs =>
          obtain ⟨k, v⟩ := kv
          simp only [sizeV, sizeM] at hv
          have hkey : ∃ t, dumpM ((k, v) :: kvs) ++ '\x7d' :: rest = '"' :: t := by
            cases kvs with
            | nil =>
              exact ⟨escapeList k.data ++ '"' :: ':' :: (dumpV v ++ '\x7d' :: rest),
                by simp [dumpM, dumpKey]⟩
            | cons kv2 kvs2 =>
              exact ⟨escapeList k.data ++ '"' :: ':' :: (dumpV v ++ ',' ::
                (dumpM (kv2 :: kvs2) ++ '\x7d' :: rest)), by simp [dumpM, dumpKey]⟩
          obtain ⟨t, htail⟩ := hkey
          have hskip : skipWs (dumpM ((k, v) :: kvs) ++ '\x7d' :: rest) =
              dumpM ((k, v) :: kvs) ++ '\x7d' :: rest := by
            rw [htail, skipWs_cons _ _ (by decide)]
          have hhead : headIs '\x7d' (dumpM ((k, v) :: kvs) ++ '\x7d' :: rest) = false := by
            rw [htail]
            simp [headIs]
          simp [hskip, hhead, ihM ((k, v) :: kvs) rest (by simp) (by simp [sizeM]; omega)]
    · obtain ⟨x, xs, rfl⟩ := List.exists_cons_of_ne_nil hne
      simp only [sizeL] at hs
      cases xs with
      | nil =>
        rw [show dumpL [x] = dumpV x from by simp [dumpL]]
        simp only [parseItems]
        rw [ihV x (']' :: rest) (by omega) (by rw [noDigitHead_cons]; decide)]
        simp [skipWs_cons ']' rest (by decide), headIs]
      | cons y ys =>
        rw [show dumpL (x :: y :: ys) = dumpV x ++ ',' :: dumpL (y :: ys)
          from by simp [dumpL]]
        simp only [sizeL] at hs
        simp only [parseItems, List.append_assoc, List.cons_append]
        rw [ihV x _ (by omega) (by rw [noDigitHead_cons]; decide)]
        simp [skipWs_cons ',' (dumpL (y :: ys) ++ ']' :: rest) (by decide), headIs,
          ihL (y :: ys) rest (by simp) (by simp [sizeL]; omega)]
    · obtain ⟨kv, kvs, rfl⟩ := List.exists_cons_of_ne_nil hne
      obtain ⟨k, v⟩ := kv
      simp only [sizeM] at hs
      cases kvs with
      | nil =>
        rw [show dumpM [(k, v)] = '"' :: (escapeList k.data ++
            ('"' :: ':' :: dumpV v)) from by simp [dumpM, dumpKey, List.append_assoc]]
        simp only [parseMembers, List.cons_append, List.append_assoc, List.cons_append]
        rw [skipWs_cons _ _ (by decide)]
        have harg : (escapeList k.data ++ ('"' :: ':' :: dumpV v)) ++ '\x7d' :: rest =
            escapeList k.data ++ '"' :: (':' :: (dumpV v ++ '\x7d' :: rest)) := by
          simp [List.append_assoc]
        simp only [harg]
        simp only [parseStrBody_escapeList]
        rw [show skipWs (':' :: (dumpV v ++ '\x7d' :: rest)) =
            ':' :: (dumpV v ++ '\x7d' :: rest) from skipWs_cons _ _ (by decide)]
        simp only [headIs, List.tail_cons]
        rw [ihV v _ (by omega) (by rw [noDigitHead_cons]; decide)]
        simp [skipWs_cons '\x7d' rest (by decide), headIs, mk_data]
      | cons kv2 kvs2 =>
        rw [show dumpM ((k, v) :: kv2 :: kvs2) = '"' :: (escapeList k.data ++
            ('"' :: ':' :: (dumpV v ++ ',' :: dumpM (kv2 :: kvs2))))
          from by simp [dumpM, dumpKey, List.append_assoc]]
        simp only [parseMembers, List.cons_append, List.append_assoc, List.cons_append]
        rw [skipWs_cons _ _ (by decide)]
        have harg : (escapeList k.data ++ ('"' :: ':' :: (dumpV v ++ ',' ::
            dumpM (kv2 :: kvs2)))) ++ '\x7d' :: rest =
            escapeList k.data ++ '"' :: (':' :: (dumpV v ++ ',' ::
              (dumpM (kv2 :: kvs2) ++ '\x7d' :: rest))) := by
          simp [List.append_assoc]
        simp only [harg]
        simp only [parseStrBody_escapeList]
        rw [show skipWs (':' :: (dumpV v ++ ',' :: (dumpM (kv2 :: kvs2) ++ '\x7d' :: rest))) =
            ':' :: (dumpV v ++ ',' :: (dumpM (kv2 :: kvs2) ++ '\x7d' :: rest))
          from skipWs_cons _ _ (by decide)]
        simp only [headIs, List.tail_cons]
        rw [ihV v _ (by omega) (by rw [noDigitHead_cons]; decide)]
        simp [skipWs_cons ',' (dumpM (kv2 :: kvs2) ++ '\x7d' :: rest) (by decide), headIs,
          mk_data, ihM (kv2 :: kvs2) rest (by simp) (by omega)]

theorem size_le_dump_aux : ∀ n : Nat,
    (∀ v, sizeV v ≤ n → sizeV v ≤ (dumpV v).length) ∧
    (∀ xs, sizeL xs ≤ n → sizeL xs ≤ (dumpL xs).length + 1) ∧
    (∀ kvs, sizeM kvs ≤ n → sizeM kvs ≤ (dumpM kvs).length + 1) := by
  intro n
  induction n with
  | zero =>
    refine ⟨fun v hv => absurd (le_trans (sizeV_pos v) hv) (by simp),
      fun xs hs => ?_, fun kvs hs => ?_⟩
    · match xs with
      | [] => simp [sizeL]
      | x :: xs => simp [sizeL] at hs
    · match kvs with
      | [] => simp [sizeM]
      | (k, v) :: kvs => simp [sizeM] at hs
  | succ n ih =>
    obtain ⟨ihV, ihL, ihM⟩ := ih
    refine ⟨fun v hv => ?_, fun xs hs => ?_, fun kvs hs => ?_⟩
    · cases v with
      | null => simp [sizeV, dumpV]
      | bool b => cases b <;> simp [sizeV, dumpV]
      | num m =>
        simp only [sizeV, dumpV]
        unfold dumpInt
        by_cases hneg : m < 0
        · simp [hneg]
        · obtain ⟨d, ds, hds⟩ := natDigits_cons m.toNat
          simp [hneg, hds]
      | str s => simp [sizeV, dumpV]
      | arr xs =>
        simp only [sizeV] at hv
        have := ihL xs (by omega)
        simp only [sizeV, dumpV]
        simp only [List.length_cons, List.length_append]
        omega
      | obj kvs =>
        simp only [sizeV] at hv
        have := ihM kvs (by omega)
        simp only [sizeV, dumpV]
        simp only [List.length_cons, List.length_append]
        omega
    · match xs with
      | [] => simp [sizeL]
      | [x] =>
        simp only [sizeL] at hs ⊢
        have := ihV x (by omega)
        rw [show dumpL [x] = dumpV x from by simp [dumpL]]
        omega
      | x :: y :: ys =>
        simp only [sizeL] at hs ⊢
        have h1 := ihV x (by omega)
        have h2 := ihL (y :: ys) (by simp only [sizeL]; omega)
        rw [show dumpL (x :: y :: ys) = dumpV x ++ ',' :: dumpL (y :: ys)
          from by simp [dumpL]]
        simp only [List.length_append, List.length_cons, sizeL] at h2 ⊢
        omega
    · match kvs with
      | [] => simp [sizeM]
      | [(k, v)] =>
        simp only [sizeM] at hs ⊢
        have := ihV v (by omega)
        rw [show dumpM [(k, v)] = dumpKey k ++ ':' :: dumpV v from by simp [dumpM]]
        simp only [List.length_append, List.length_cons]
        omega
      | (k, v) :: kv2 :: kvs2 =>
        simp only [sizeM] at hs ⊢
        have h1 := ihV v (by omega)
        have h2 := ihM (kv2 :: kvs2) (by simp only [sizeM]; omega)
        rw [show dumpM ((k, v) :: kv2 :: kvs2) =
            (dumpKey k ++ ':' :: dumpV v) ++ ',' :: dumpM (kv2 :: kvs2)
          from by simp [dumpM]]
        simp only [List.length_append, List.length_cons, sizeM] at h2 ⊢
        omega

/-- Parsing inverts serialization: the modelled `externals/json.hpp`
parser returns exactly the document the modelled serializer produced. -/
theorem parseJson_dumpJson (v : JVal) : parseJson (dumpJson v) = some v := by
  have hsize : sizeV v ≤ (dumpV v).length :=
    (size_le_dump_aux (sizeV v)).1 v le_rfl
  have h := (parse_dump_aux ((dumpV v).length + 1)).1 v [] (by omega) (by decide)
  rw [List.append_nil] at h
  unfold parseJson dumpJson
  rw [show (String.mk (dumpV v)).length = (dumpV v).length from rfl]
  rw [show (String.mk (dumpV v)).data = dumpV v from rfl]
  rw [h]
  simp [skipWs]

/-- Outcome of a handler, as serialized in its HTTP response: `ok` is a
200 with `isOk = true`, `badRequest` a 400, `notFound` the 404 with
"not found", `saveFailed` the 500 with "failed to save db". -/
inductive Resp where
  | ok (data : JVal)
  | badRequest (msg : String)
  | notFound
  | saveFailed
deriving Repr, DecidableEq

/-- Inputs of one POST `/api/items` request: the parsed body, the clock
readings consumed for the generated id and the timestamp, and the outcome
`save_db` would report, passed as an oracle. -/
structure PostInput where
  body : Obj
  ms : Nat
  tsec : Int
  saveOk : Bool
deriving Repr, DecidableEq

/-- The POST `/api/items` handler (`app.cpp` lines 100-132): reject a body
missing `item_id` or `item_name`; copy the body, generating `__backendId`
only when the body does not already carry one (the generator, and hence
the counter increment, is only reached in that case) and a `timestamp`
only when absent; push the record onto `db["items"]`; then save.  Returns
the response together with the items collection and the generator counter
after the handler runs.  When saving fails the handler answers 500 and
leaves the appended record in place. -/
def post_handler (items : List Obj) (counter : Nat) (inp : PostInput) :
    Resp × List Obj × Nat :=
  if !hasField inp.body "item_id" || !hasField inp.body "item_name" then
    (.badRequest "missing fields", items, counter)
  else
    let step1 :=
      if hasField inp.body "__backendId" then (inp.body, counter)
      else (setField inp.body "__backendId" (.str (make_backend_id inp.ms counter)),
        counter + 1)
    let newItem :=
      if hasField step1.1 "timestamp" then step1.1
      else setField step1.1 "timestamp" (.num inp.tsec)
    let items2 := items ++ [newItem]
    if inp.saveOk then (.ok (.obj newItem), items2, step1.2)
    else (.saveFailed, items2, step1.2)

/-- Result of testing one record against the id captured from the URL, as
the PUT and DELETE handlers do (`app.cpp` lines 143 and 185):
`it.contains("__backendId") && it["__backendId"].get<std::string>() == id`.
`get<std::string>` on a non-string value throws `type_error`, modelled as
`typeError`. -/
inductive MatchTest where
  | noMatch
  | matched
  | typeError
deriving Repr, DecidableEq

def recordMatches (r : Obj) (id : String) : MatchTest :=
  match getField r "__backendId" with
  | none => .noMatch
  | some (.str s) => if s = id then .matched else .noMatch
  | some _ => .typeError

/-- The merge-update loop of the PUT handler (`app.cpp` lines 145-147):
every top-level field of the request body is written onto the record,
nested values being replaced wholesale. -/
def mergeFields (r : Obj) (body : Obj) : Obj :=
  body.foldl (fun acc kv => setField acc kv.1 kv.2) r

/-- The scan of the PUT handler (`app.cpp` lines 142-151): walk the items,
merge the body onto the first record whose `__backendId` equals the id.
`.ok none` = no match; `.error` = `type_error` escaped from
`get<std::string>`. -/
def updateScan (id : String) (body : Obj) : List Obj → Except Unit (Option (List Obj))
  | [] => .ok none
  | r :: rs =>
    match recordMatches r id with
    | .typeError => .error ()
    | .matched => .ok (some (mergeFields r body :: rs))
    | .noMatch => (updateScan id body rs).map (Option.map (r :: ·))

/-- The PUT `/api/items/:id` handler (`app.cpp` lines 135-174): on a
thrown `type_error` the outer catch answers 400 "invalid json"; with no
match it answers 404; otherwise it merges in place and saves, answering
500 on save failure while RETAINING the merged record in memory. -/
def put_handler (items : List Obj) (id : String) (body : Obj) (saveOk : Bool) :
    Resp × List Obj :=
  match updateScan id body items with
  | .error _ => (.badRequest "invalid json", items)
  | .ok none => (.notFound, items)
  | .ok (some items2) =>
    if saveOk then (.ok .null, items2) else (.saveFailed, items2)

/-- The filter loop of the DELETE handler (`app.cpp` lines 182-191):
rebuild the array without every matching record, remembering whether
anything matched. -/
def deleteScan (id : String) : List Obj → Except Unit (Bool × List Obj)
  | [] => .ok (false, [])
  | r :: rs =>
    match recordMatches r id with
    | .typeError => .error ()
    | .matched => (deleteScan id rs).map fun p => (true, p.2)
    | .noMatch => (deleteScan id rs).map fun p => (p.1, r :: p.2)

/-- The DELETE `/api/items/:id` handler (`app.cpp` lines 177-209); the
handler has no try/catch, so a `type_error` escapes it (modelled as a 500
from the server).  When nothing matched it answers 404 without saving;
otherwise it saves, answering 500 on save failure while RETAINING the
deletion in memory. -/
def delete_handler (items : List Obj) (id : String) (saveOk : Bool) :
    Resp × List Obj :=
  match deleteScan id items with
  | .error _ => (.badRequest "unhandled type_error", items)
  | .ok (removed, items2) =>
    if removed then
      if saveOk then (.ok .null, items2) else (.saveFailed, items2)
    else (.notFound, items2)

/-- The backing file `db.json` and its sibling temporary `db.json.tmp`,
as contents (`none` = the path does not exist). -/
structure FS where
  canonical : Option String
  tmp : Option String
deriving Repr, DecidableEq

/-- Outcome of constructing the `ofstream` over the temporary path and
streaming the document into it.  C++ `ofstream` reports open and write
failures through its failbit and, under the default exception mask, never
throws: a full disk leaves a truncated file (`diskFull k` = only the
first `k` characters reached the disk) and a failed open (e.g. permission
denied) leaves no file; neither raises an exception the surrounding
try/catch could see. -/
inductive WriteOutcome where
  | ok
  | diskFull (written : Nat)
  | openFail
deriving Repr, DecidableEq

/-- Effect of `o << db.dump(2); o.close()` on the filesystem. -/
def applyWrite (content : String) (w : WriteOutcome) (fs : FS) : FS :=
  match w with
  | .ok => { fs with tmp := some content }
  | .diskFull k => { fs with tmp := some (String.mk (content.data.take k)) }
  | .openFail => fs

/-- `save_db` (`app.cpp` lines 51-65): stream the serialized document into
`db.json.tmp`, then `fs::rename` it over `db.json`.  `fs::rename` reports
failure by throwing `filesystem_error` (also when the temporary is
missing), which the catch turns into `false`; the stream's own failure
state is never consulted. -/
def save_db (content : String) (w : WriteOutcome) (renameOk : Bool) (fs : FS) :
    Bool × FS :=
  let fs1 := applyWrite content w fs
  match fs1.tmp with
  | none => (false, fs1)
  | some t =>
    if renameOk then (true, { canonical := some t, tmp := none })
    else (false, fs1)

/-- The empty document `{"items": []}` that `db` falls back to. -/
def emptyDb : JVal := .obj [("items", .arr [])]

/-- The shape check of `load_db` (`app.cpp` line 40): the parsed document
must be an object carrying an array-valued "items" member. -/
def goodShape (d : JVal) : Bool :=
  match d with
  | .obj kvs =>
    match getField kvs "items" with
    | some (.arr _) => true
    | _ => false
  | _ => false

/-- `load_db` (`app.cpp` lines 26-49): if the backing file is absent,
initialize it with the empty document; otherwise parse it — on a parse
error (`operator>>` throws, caught at line 44) or a failed shape check,
substitute the empty document in memory WITHOUT writing the backing file.
Returns the new in-memory `db` and the filesystem afterwards. -/
def load_db (fs : FS) : JVal × FS :=
  match fs.canonical with
  | none => (emptyDb, { fs with canonical := some (dumpJson emptyDb) })
  | some s =>
    match parseJson s with
    | none => (emptyDb, fs)
    | some d => (if goodShape d then d else emptyDb, fs)

/-- One same-thread operation on `db_mutex`. -/
inductive LockOp where
  | acquire
  | release
deriving Repr, DecidableEq

/-- `db_mutex` operations performed by `save_db`: its `lock_guard`
(`app.cpp` line 52) at entry, released on return. -/
def save_db_locks : List LockOp := [.acquire, .release]

/-- `db_mutex` operations on the POST mutation path (`app.cpp` lines
114-123): the handler's `lock_guard` (line 115) with the `save_db` call
(line 117) nested inside the guarded block. -/
def post_locks : List LockOp := [.acquire] ++ save_db_locks ++ [.release]

/-- `db_mutex` operations on the PUT mutation path (`app.cpp` lines 141
and 158): `save_db` is called inside the handler's guarded block. -/
def put_locks : List LockOp := [.acquire] ++ save_db_locks ++ [.release]

/-- `db_mutex` operations on the DELETE mutation path (`app.cpp` lines
181 and 193): `save_db` is called inside the handler's guarded block. -/
def delete_locks : List LockOp := [.acquire] ++ save_db_locks ++ [.release]

/-- Execute a same-thread sequence of operations against the
non-recursive `std::mutex`: acquiring it while already holding it never
returns (undefined behaviour, in practice a self-deadlock).  `none` = the
sequence blocks forever, `some held` = it completes. -/
def runLocks : List LockOp → Bool → Option Bool
  | [], held => some held
  | .acquire :: rest, false => runLocks rest true
  | .acquire :: _, true => none
  | .release :: rest, true => runLocks rest false
  | .release :: _, false => none

/-- Read access `db["items"]` on a loaded document, the view the GET
handler serves. -/
def dbItems (d : JVal) : List JVal :=
  match d with
  | .obj kvs =>
    match getField kvs "items" with
    | some (.arr xs) => xs
    | _ => []
  | _ => []

/-- The document `{"items": [...]}` holding a Collection of records. -/
def mkDb (coll : List Obj) : JVal := .obj [("items", .arr (coll.map JVal.obj))]

theorem getField_eq_none_iff (r : Obj) (k : String) :
    getField r k = none ↔ ∀ kv ∈ r, kv.1 ≠ k := by
  induction r with
  | nil => simp [getField]
  | cons kv rest ih =>
    obtain ⟨k0, v0⟩ := kv
    by_cases h : k0 = k <;> simp [getField, h, ih]

theorem mergeFields_nil (r : Obj) : mergeFields r [] = r := rfl

theorem mergeFields_cons (r : Obj) (k : String) (v : JVal) (body : Obj) :
    mergeFields r ((k, v) :: body) = mergeFields (setField r k v) body := rfl

theorem getField_mergeFields_none (body : Obj) (k : String)
    (h : getField body k = none) :
    ∀ r : Obj, getField (mergeFields r body) k = getField r k := by
  induction body with
  | nil => intro r; simp [mergeFields_nil]
  | cons kv rest ih =>
    intro r
    obtain ⟨k0, v0⟩ := kv
    rw [getField_eq_none_iff] at h
    have hk0 : k0 ≠ k := h (k0, v0) (by simp)
    have hrest : getField rest k = none := by
      rw [getField_eq_none_iff]
      exact fun kv hkv => h kv (by simp [hkv])
    rw [mergeFields_cons, ih hrest, getField_setField_ne _ _ _ _ hk0]

theorem getField_mergeFields_mem (body : Obj) (k : String) (v : JVal)
    (hnodup : (body.map Prod.fst).Nodup) (hmem : (k, v) ∈ body) :
    ∀ r : Obj, getField (mergeFields r body) k = some v := by
  induction body with
  | nil => simp at hmem
  | cons kv rest ih =>
    intro r
    obtain ⟨k0, v0⟩ := kv
    simp only [List.map_cons, List.nodup_cons] at hnodup
    rcases List.mem_cons.mp hmem with heq | hmem2
    · obtain ⟨rfl, rfl⟩ := Prod.mk.injEq _ _ _ _ ▸ heq
      rw [mergeFields_cons]
      have hnone : getField rest k = none := by
        rw [getField_eq_none_iff]
        intro kv hkv hc
        exact hnodup.1 (hc ▸ List.mem_map_of_mem Prod.fst hkv)
      rw [getField_mergeFields_none rest k hnone, getField_setField_self]
    · rw [mergeFields_cons]
      exact ih hnodup.2 hmem2 (setField r k0 v0)

theorem recordMatches_matched_iff (r : Obj) (id : String) :
    recordMatches r id = .matched ↔ getField r "__backendId" = some (.str id) := by
  unfold recordMatches
  match h : getField r "__backendId" with
  | none => simp
  | some (.str s) =>
    by_cases hs : s = id <;> simp [hs]
  | some .null | some (.bool _) | some (.num _) | some (.arr _) | some (.obj _) => simp

theorem updateScan_no_match (id : String) (body : Obj) :
    ∀ items : List Obj, (∀ r ∈ items, recordMatches r id = .noMatch) →
      updateScan id body items = .ok none := by
  intro items
  induction items with
  | nil => intro _; rfl
  | cons r rs ih =>
    intro h
    simp [updateScan, h r (by simp), ih (fun x hx => h x (by simp [hx])), Except.map]

theorem updateScan_never_matched (id : String) (body : Obj) :
    ∀ items : List Obj, (∀ r ∈ items, recordMatches r id ≠ .matched) →
      updateScan id body items = .error () ∨ updateScan id body items = .ok none := by
  intro items
  induction items with
  | nil => exact fun _ => Or.inr rfl
  | cons r rs ih =>
    intro h
    match hm : recordMatches r id with
    | .matched => exact absurd hm (h r (by simp))
    | .typeError => exact Or.inl (by simp [updateScan, hm])
    | .noMatch =>
      rcases ih (fun x hx => h x (by simp [hx])) with herr | hnone
      · exact Or.inl (by simp [updateScan, hm, herr, Except.map])
      · exact Or.inr (by simp [updateScan, hm, hnone, Except.map])

theorem updateScan_first_match (id : String) (body : Obj) :
    ∀ (pre : List Obj) (r : Obj) (post : List Obj),
      (∀ x ∈ pre, recordMatches x id = .noMatch) →
      recordMatches r id = .matched →
      updateScan id body (pre ++ r :: post) =
        .ok (some (pre ++ mergeFields r body :: post)) := by
  intro pre
  induction pre with
  | nil =>
    intro r post _ hr
    simp [updateScan, hr]
  | cons x pre ih =>
    intro r post hpre hr
    simp [updateScan, hpre x (by simp),
      ih r post (fun y hy => hpre y (by simp [hy])) hr, Except.map]

/-- One fresh record as create finalizes it when the body carries no
`__backendId`: the generated id and, when absent, the timestamp. -/
def mkRecord (inp : PostInput) (c : Nat) : Obj :=
  let r := setField inp.body "__backendId" (.str (make_backend_id inp.ms c))
  if hasField r "timestamp" then r else setField r "timestamp" (.num inp.tsec)

/-- The records produced by a run of fresh creates with consecutive
counter values. -/
def mkRecords (c : Nat) : List PostInput → List Obj
  | [] => []
  | inp :: rest => mkRecord inp c :: mkRecords (c + 1) rest

/-- Fold a sequence of POST requests through the store: the in-memory
items collection and generator counter after a sequence of creates. -/
def runPosts (items : List Obj) (counter : Nat) : List PostInput → List Obj × Nat
  | [] => (items, counter)
  | inp :: rest =>
    let out := post_handler items counter inp
    runPosts out.2.1 out.2.2 rest

/-- The backend identifier column of the Collection. -/
def backendIds (items : List Obj) : List (Option JVal) :=
  items.map fun r => getField r "__backendId"

theorem post_handler_fresh (items : List Obj) (counter : Nat) (inp : PostInput)
    (h1 : hasField inp.body "item_id" = true) (h2 : hasField inp.body "item_name" = true)
    (hnoid : hasField inp.body "__backendId" = false) (hsave : inp.saveOk = true) :
    post_handler items counter inp =
      (.ok (.obj (mkRecord inp counter)), items ++ [mkRecord inp counter], counter + 1) := by
  unfold post_handler mkRecord
  rw [h1, h2, hnoid, hsave]
  simp

theorem runPosts_fresh (inps : List PostInput)
    (hvalid : ∀ inp ∈ inps, hasField inp.body "item_id" = true ∧
      hasField inp.body "item_name" = true)
    (hnoid : ∀ inp ∈ inps, hasField inp.body "__backendId" = false)
    (hsave : ∀ inp ∈ inps, inp.saveOk = true) :
    ∀ (items : List Obj) (counter : Nat),
      runPosts items counter inps = (items ++ mkRecords counter inps, counter + inps.length) := by
  induction inps with
  | nil => intro items counter; simp [runPosts, mkRecords]
  | cons inp rest ih =>
    intro items counter
    have hv := hvalid inp (by simp)
    rw [runPosts, post_handler_fresh items counter inp hv.1 hv.2
      (hnoid inp (by simp)) (hsave inp (by simp))]
    rw [ih (fun x hx => hvalid x (by simp [hx])) (fun x hx => hnoid x (by simp [hx]))
      (fun x hx => hsave x (by simp [hx]))]
    simp [mkRecords]
    omega

theorem getField_mkRecord_backendId (inp : PostInput) (c : Nat) :
    getField (mkRecord inp c) "__backendId" =
      some (.str (make_backend_id inp.ms c)) := by
  unfold mkRecord
  by_cases h : hasField (setField inp.body "__backendId"
      (.str (make_backend_id inp.ms c))) "timestamp" = true
  · simp only [h, if_true]
    exact getField_setField_self _ _ _
  · simp only [Bool.not_eq_true] at h
    simp only [h, Bool.false_eq_true, if_false]
    rw [getField_setField_ne _ _ _ _ (by decide)]
    exact getField_setField_self _ _ _

theorem mem_mkRecords_backendId (r : Obj) :
    ∀ (inps : List PostInput) (c : Nat), r ∈ mkRecords c inps →
      ∃ ms c2, c ≤ c2 ∧ getField r "__backendId" =
        some (.str (make_backend_id ms c2)) := by
  intro inps
  induction inps with
  | nil => intro c h; simp [mkRecords] at h
  | cons inp rest ih =>
    intro c h
    rcases List.mem_cons.mp h with rfl | h2
    · exact ⟨inp.ms, c, le_rfl, getField_mkRecord_backendId inp c⟩
    · obtain ⟨ms, c2, hc, hg⟩ := ih (c + 1) h2
      exact ⟨ms, c2, by omega, hg⟩

theorem mkRecords_length (inps : List PostInput) :
    ∀ c, (mkRecords c inps).length = inps.length := by
  induction inps with
  | nil => intro c; rfl
  | cons inp rest ih => intro c; simp [mkRecords, ih]

theorem mkRecords_ids_pairwise (inps : List PostInput) :
    ∀ c, (backendIds (mkRecords c inps)).Pairwise (· ≠ ·) := by
  induction inps with
  | nil => intro c; simp [mkRecords, backendIds]
  | cons inp rest ih =>
    intro c
    simp only [mkRecords, backendIds, List.map_cons, List.pairwise_cons]
    refine ⟨?_, ih (c + 1)⟩
    intro o ho
    simp only [List.mem_map] at ho
    obtain ⟨r, hr, rfl⟩ := ho
    obtain ⟨ms, c2, hc, hg⟩ := mem_mkRecords_backendId r rest (c + 1) hr
    rw [getField_mkRecord_backendId, hg]
    intro hEq
    have : make_backend_id inp.ms c = make_backend_id ms c2 := by
      have := Option.some.inj hEq
      exact JVal.str.inj this
    exact make_backend_id_inj_counter (by omega) this

/-! ## The claims -/

/-- C1, counterexample: a create whose save fails, starting from the empty
Collection with a valid body, answers `PersistenceFailure` (500) but the
in-memory Collection afterwards is NOT the Collection before the call —
the appended record was not removed. -/
theorem C1_counterexample :
    (post_handler [] 0
      ⟨[("item_id", .str "I1"), ("item_name", .str "W")], 5, 7, false⟩).1 =
      .saveFailed ∧
    (post_handler [] 0
      ⟨[("item_id", .str "I1"), ("item_name", .str "W")], 5, 7, false⟩).2.1 ≠
      ([] : List Obj) := by
  decide

/-- C1, amended: when Save reports failure on a create with a valid body,
the handler returns `PersistenceFailure`, but the newly appended record
REMAINS in the in-memory Collection (`items ++ [r]`): there is no
rollback, and memory and disk diverge. -/
theorem C1_amended_post_failure_no_rollback (items : List Obj) (counter : Nat)
    (inp : PostInput)
    (h1 : hasField inp.body "item_id" = true)
    (h2 : hasField inp.body "item_name" = true)
    (hfail : inp.saveOk = false) :
    (post_handler items counter inp).1 = .saveFailed ∧
    ∃ r, (post_handler items counter inp).2.1 = items ++ [r] := by
  unfold post_handler
  rw [h1, h2, hfail]
  simp

/-- C1, witness for the amended theorem at a concrete input. -/
theorem C1_witness :
    (post_handler [[("__backendId", .str "b-1-0")]] 3
      ⟨[("item_id", .str "I1"), ("item_name", .str "W")], 5, 7, false⟩).1 =
      .saveFailed ∧
    ∃ r, (post_handler [[("__backendId", .str "b-1-0")]] 3
      ⟨[("item_id", .str "I1"), ("item_name", .str "W")], 5, 7, false⟩).2.1 =
      [[("__backendId", .str "b-1-0")]] ++ [r] :=
  C1_amended_post_failure_no_rollback [[("__backendId", .str "b-1-0")]] 3
    ⟨[("item_id", .str "I1"), ("item_name", .str "W")], 5, 7, false⟩
    (by decide) (by decide) rfl

/-- C2, counterexample: a sequence of two successful Appends from the
empty Collection whose request bodies carry the same caller-supplied
`__backendId` yields a Collection whose backend identifiers are NOT
pairwise distinct. -/
theorem C2_counterexample :
    ¬ (backendIds (runPosts [] 0
      [⟨[("item_id", .str "I1"), ("item_name", .str "W"),
          ("__backendId", .str "dup")], 0, 0, true⟩,
       ⟨[("item_id", .str "I2"), ("item_name", .str "X"),
          ("__backendId", .str "dup")], 0, 0, true⟩]).1).Pairwise (· ≠ ·) := by
  decide

/-- C2, amended: for every sequence of successful Appends starting from
the empty Collection in which no request body supplies its own
`__backendId`, the resulting Collection has as many records as there were
Appends and its backend identifiers are pairwise distinct (each is
`b-<ms>-<counter>` with a strictly increasing counter). -/
theorem C2_amended_fresh_appends_unique (inps : List PostInput) (c0 : Nat)
    (hvalid : ∀ inp ∈ inps, hasField inp.body "item_id" = true ∧
      hasField inp.body "item_name" = true)
    (hnoid : ∀ inp ∈ inps, hasField inp.body "__backendId" = false)
    (hsave : ∀ inp ∈ inps, inp.saveOk = true) :
    (runPosts [] c0 inps).1.length = inps.length ∧
    (backendIds (runPosts [] c0 inps).1).Pairwise (· ≠ ·) := by
  rw [runPosts_fresh inps hvalid hnoid hsave [] c0]
  simp only [List.nil_append]
  exact ⟨mkRecords_length inps c0, mkRecords_ids_pairwise inps c0⟩

/-- C2, witness for the amended theorem at a concrete two-Append run. -/
theorem C2_witness :
    (runPosts [] 0
      [⟨[("item_id", .str "I1"), ("item_name", .str "W")], 5, 7, true⟩,
       ⟨[("item_id", .str "I2"), ("item_name", .str "X")], 5, 8, true⟩]).1.length =
      ([⟨[("item_id", .str "I1"), ("item_name", .str "W")], 5, 7, true⟩,
        ⟨[("item_id", .str "I2"), ("item_name", .str "X")], 5, 8, true⟩] :
        List PostInput).length ∧
    (backendIds (runPosts [] 0
      [⟨[("item_id", .str "I1"), ("item_name", .str "W")], 5, 7, true⟩,
       ⟨[("item_id", .str "I2"), ("item_name", .str "X")], 5, 8, true⟩]).1).Pairwise
      (· ≠ ·) :=
  C2_amended_fresh_appends_unique
    [⟨[("item_id", .str "I1"), ("item_name", .str "W")], 5, 7, true⟩,
     ⟨[("item_id", .str "I2"), ("item_name", .str "X")], 5, 8, true⟩] 0
    (by decide) (by decide) (by decide)

/-- C3, counterexample: a MergeUpdate whose `partial_fields` contain
`__backendId` reassigns the record's backend identifier: updating the
record created with id "a" by `{__backendId: "z"}` leaves a record whose
`__backendId` is "z", not its value at creation. -/
theorem C3_counterexample :
    getField ((put_handler [[("__backendId", .str "a"), ("timestamp", .num 1)]]
        "a" [("__backendId", .str "z")] true).2.headD []) "__backendId" =
      some (.str "z") ∧
    some (JVal.str "z") ≠ some (JVal.str "a") := by
  decide

/-- C3, amended: a MergeUpdate leaves a record's `__backendId` and
`timestamp` at their previous values PROVIDED `partial_fields` mentions
neither key; the handler itself never protects the two store-managed
fields. -/
theorem C3_amended_merge_preserves_store_fields (r body : Obj)
    (h1 : getField body "__backendId" = none)
    (h2 : getField body "timestamp" = none) :
    getField (mergeFields r body) "__backendId" = getField r "__backendId" ∧
    getField (mergeFields r body) "timestamp" = getField r "timestamp" :=
  ⟨getField_mergeFields_none body "__backendId" h1 r,
   getField_mergeFields_none body "timestamp" h2 r⟩

/-- C3, witness for the amended theorem at a concrete record and body. -/
theorem C3_witness :
    getField ([("item_name", JVal.str "W2")] : Obj) "__backendId" = none ∧
    getField ([("item_name", JVal.str "W2")] : Obj) "timestamp" = none ∧
    (getField (mergeFields [("__backendId", .str "a"), ("timestamp", .num 1)]
        [("item_name", .str "W2")]) "__backendId" =
      getField [("__backendId", JVal.str "a"), ("timestamp", JVal.num 1)] "__backendId" ∧
    getField (mergeFields [("__backendId", .str "a"), ("timestamp", .num 1)]
        [("item_name", .str "W2")]) "timestamp" =
      getField [("__backendId", JVal.str "a"), ("timestamp", JVal.num 1)] "timestamp") :=
  ⟨by decide, by decide,
   C3_amended_merge_preserves_store_fields
     [("__backendId", .str "a"), ("timestamp", .num 1)]
     [("item_name", .str "W2")] (by decide) (by decide)⟩

/-- C4: `save_db` as written returns `true` after a disk-full failure
while streaming the temporary file — `ofstream` signals the failure only
through its failbit, which the function never checks, and nothing throws —
leaving a TRUNCATED document renamed over the canonical path. -/
theorem C4_save_db_true_on_partial_write (content : String) (k : Nat) (fs : FS)
    (hk : k < content.length) :
    (save_db content (.diskFull k) true fs).1 = true ∧
    (save_db content (.diskFull k) true fs).2.canonical =
      some (String.mk (content.data.take k)) ∧
    (save_db content (.diskFull k) true fs).2.canonical ≠ some content := by
  refine ⟨rfl, rfl, ?_⟩
  intro hEq
  have hdata : content.data.take k = content.data :=
    congrArg String.data (Option.some.inj hEq)
  have hlen := congrArg List.length hdata
  simp only [List.length_take] at hlen
  have : content.data.length = content.length := rfl
  omega

/-- C4, witness at a concrete disk-full write. -/
theorem C4_witness :
    (3 : Nat) < ("0123456789" : String).length ∧
    ((save_db "0123456789" (.diskFull 3) true ⟨some "old", none⟩).1 = true ∧
     (save_db "0123456789" (.diskFull 3) true ⟨some "old", none⟩).2.canonical =
       some (String.mk (("0123456789" : String).data.take 3)) ∧
     (save_db "0123456789" (.diskFull 3) true ⟨some "old", none⟩).2.canonical ≠
       some "0123456789") :=
  ⟨by decide, C4_save_db_true_on_partial_write "0123456789" 3 ⟨some "old", none⟩ (by decide)⟩

/-- C5: every mutating path self-deadlocks: the POST, PUT and DELETE
handlers each hold `db_mutex` when they call `save_db`, whose own
`lock_guard` re-acquires the same non-recursive mutex on the same thread,
so the operation never completes. -/
theorem C5_mutating_paths_deadlock :
    runLocks post_locks false = none ∧
    runLocks put_locks false = none ∧
    runLocks delete_locks false = none := by
  decide

/-- C6: loading a backing file whose content parses as JSON but fails the
shape check (an object with an array-valued "items" member) yields the
empty document in memory — the served Collection is empty — and leaves
the on-disk file untouched. -/
theorem C6_corrupt_shape_load (s : String) (d : JVal) (tmp : Option String)
    (hp : parseJson s = some d) (hshape : goodShape d = false) :
    load_db ⟨some s, tmp⟩ = (emptyDb, ⟨some s, tmp⟩) ∧
    dbItems (load_db ⟨some s, tmp⟩).1 = [] := by
  unfold load_db
  simp [hp, hshape, emptyDb, dbItems, getField]

/-- C6, witness at the spec's example content. -/
theorem C6_witness :
    parseJson "\x7b\"items\": \"not-an-array\"\x7d" =
      some (.obj [("items", .str "not-an-array")]) ∧
    goodShape (.obj [("items", .str "not-an-array")]) = false ∧
    (load_db ⟨some "\x7b\"items\": \"not-an-array\"\x7d", none⟩ =
      (emptyDb, ⟨some "\x7b\"items\": \"not-an-array\"\x7d", none⟩) ∧
    dbItems (load_db ⟨some "\x7b\"items\": \"not-an-array\"\x7d", none⟩).1 = []) :=
  ⟨by decide, by decide,
   C6_corrupt_shape_load "\x7b\"items\": \"not-an-array\"\x7d"
     (.obj [("items", .str "not-an-array")]) none (by decide) (by decide)⟩

/-- C7, counterexample: a Collection whose only record carries a
NON-STRING `__backendId` (reachable, since create stores caller-supplied
values verbatim) makes MergeUpdate on an id held by no record fail with
the handler's 400 "invalid json" answer (`get<std::string>` throws
`type_error`), not with `NotFound`. -/
theorem C7_counterexample :
    (∀ r ∈ [[(("__backendId" : String), JVal.num 7)]],
      getField r "__backendId" ≠ some (.str "z")) ∧
    (put_handler [[("__backendId", JVal.num 7)]] "z"
      [("item_name", .str "W")] true).1 ≠ Resp.notFound := by
  decide

/-- C7, amended: MergeUpdate on an identifier held by no record leaves the
Collection unchanged, and it fails with `NotFound` PROVIDED every
`__backendId` value present in the Collection is a string; a record
holding a non-string `__backendId` makes the scan throw `type_error`
instead (answered as 400), still leaving the Collection unchanged. -/
theorem C7_amended_update_unknown_id (items : List Obj) (id : String) (body : Obj)
    (saveOk : Bool)
    (hno : ∀ r ∈ items, getField r "__backendId" ≠ some (.str id)) :
    (put_handler items id body saveOk).2 = items ∧
    ((∀ r ∈ items, ∀ v, getField r "__backendId" = some v → ∃ s, v = .str s) →
      put_handler items id body saveOk = (.notFound, items)) := by
  have hnm : ∀ r ∈ items, recordMatches r id ≠ .matched := by
    intro r hr hc
    exact hno r hr ((recordMatches_matched_iff r id).mp hc)
  constructor
  · rcases updateScan_never_matched id body items hnm with herr | hnone
    · simp [put_handler, herr]
    · simp [put_handler, hnone]
  · intro hstr
    have hnomatch : ∀ r ∈ items, recordMatches r id = .noMatch := by
      intro r hr
      unfold recordMatches
      match hg : getField r "__backendId" with
      | none => rfl
      | some v =>
        obtain ⟨s, rfl⟩ := hstr r hr v hg
        have hs : s ≠ id := by
          intro hs
          exact hno r hr (by rw [hg, hs])
        simp [hs]
    simp [put_handler, updateScan_no_match id body items hnomatch]

/-- C7, witness for the amended theorem at a concrete unknown id. -/
theorem C7_witness :
    (∀ r ∈ [[(("__backendId" : String), JVal.str "b-1-0")]],
      getField r "__backendId" ≠ some (.str "zzz")) ∧
    ((put_handler [[("__backendId", JVal.str "b-1-0")]] "zzz"
        [("item_name", .str "W")] true).2 =
      [[("__backendId", JVal.str "b-1-0")]] ∧
    ((∀ r ∈ [[(("__backendId" : String), JVal.str "b-1-0")]],
        ∀ v, getField r "__backendId" = some v → ∃ s, v = .str s) →
      put_handler [[("__backendId", JVal.str "b-1-0")]] "zzz"
        [("item_name", .str "W")] true =
        (.notFound, [[("__backendId", JVal.str "b-1-0")]]))) :=
  ⟨by decide,
   C7_amended_update_unknown_id [[("__backendId", JVal.str "b-1-0")]] "zzz"
     [("item_name", .str "W")] true (by decide)⟩

/-- C8: a successful MergeUpdate merges shallowly: the handler replaces
the located record by `mergeFields` of it with the body, `mergeFields`
overwrites exactly the top-level fields named in the body (wholesale, no
structural merge) and leaves every other field of the record unchanged. -/
theorem C8_merge_update_shallow (pre : List Obj) (r : Obj) (post : List Obj)
    (id : String) (body : Obj) (saveOk : Bool)
    (hpre : ∀ x ∈ pre, recordMatches x id = .noMatch)
    (hr : recordMatches r id = .matched)
    (hnodup : (body.map Prod.fst).Nodup) (hsave : saveOk = true) :
    put_handler (pre ++ r :: post) id body saveOk =
      (.ok .null, pre ++ mergeFields r body :: post) ∧
    (∀ k v, (k, v) ∈ body → getField (mergeFields r body) k = some v) ∧
    (∀ k, getField body k = none →
      getField (mergeFields r body) k = getField r k) := by
  refine ⟨?_, fun k v hkv => getField_mergeFields_mem body k v hnodup hkv r,
    fun k hk => getField_mergeFields_none body k hk r⟩
  rw [put_handler.eq_def, updateScan_first_match id body pre r post hpre hr, hsave]
  simp

/-- C8, witness: merging `{a:1}` onto a record `{a:0, b:2}` yields
`{a:1, b:2}`. -/
theorem C8_witness :
    (∀ x ∈ ([] : List Obj), recordMatches x "b-1-0" = .noMatch) ∧
    recordMatches [("__backendId", .str "b-1-0"), ("a", .num 0), ("b", .num 2)]
      "b-1-0" = .matched ∧
    (([("a", JVal.num 1)].map Prod.fst).Nodup) ∧
    (put_handler [[("__backendId", .str "b-1-0"), ("a", .num 0), ("b", .num 2)]]
        "b-1-0" [("a", .num 1)] true =
      (.ok .null, [mergeFields [("__backendId", .str "b-1-0"), ("a", .num 0),
        ("b", .num 2)] [("a", .num 1)]]) ∧
    (∀ k v, (k, v) ∈ ([("a", JVal.num 1)] : Obj) →
      getField (mergeFields [("__backendId", .str "b-1-0"), ("a", .num 0),
        ("b", .num 2)] [("a", .num 1)]) k = some v) ∧
    (∀ k, getField ([("a", JVal.num 1)] : Obj) k = none →
      getField (mergeFields [("__backendId", .str "b-1-0"), ("a", .num 0),
        ("b", .num 2)] [("a", .num 1)]) k =
      getField [("__backendId", JVal.str "b-1-0"), ("a", JVal.num 0),
        ("b", JVal.num 2)] k)) :=
  ⟨by decide, by decide, by decide,
   C8_merge_update_shallow [] [("__backendId", .str "b-1-0"), ("a", .num 0),
     ("b", .num 2)] [] "b-1-0" [("a", .num 1)] true
     (by decide) (by decide) (by decide) rfl⟩

/-- C9: a successful Save of the document holding any Collection followed
by a Load (a fresh process) reconstructs the document — and hence the
Collection — exactly: the modelled serialize-then-parse round trip is the
identity, the shape check passes, and nothing is rewritten on load. -/
theorem C9_save_then_load_roundtrip (coll : List Obj) (fs : FS) :
    (save_db (dumpJson (mkDb coll)) .ok true fs).1 = true ∧
    load_db (save_db (dumpJson (mkDb coll)) .ok true fs).2 =
      (mkDb coll, (save_db (dumpJson (mkDb coll)) .ok true fs).2) ∧
    dbItems (mkDb coll) = coll.map JVal.obj ∧
    (∀ coll2 : List Obj, mkDb coll2 = mkDb coll → coll2 = coll) := by
  have hs : save_db (dumpJson (mkDb coll)) .ok true fs =
      (true, ⟨some (dumpJson (mkDb coll)), none⟩) := rfl
  rw [hs]
  refine ⟨rfl, ?_, by simp [dbItems, mkDb, getField], ?_⟩
  · unfold load_db
    simp [parseJson_dumpJson, goodShape, mkDb, getField]
  · intro coll2 h
    simp only [mkDb, JVal.obj.injEq, List.cons.injEq, Prod.mk.injEq, true_and,
      JVal.arr.injEq, and_true] at h
    exact List.map_injective_iff.mpr (fun a b => JVal.obj.inj) h

/-- C9, witness at a concrete one-record Collection. -/
theorem C9_witness :
    (save_db (dumpJson (mkDb [[("item_id", .str "I1")]])) .ok true ⟨none, none⟩).1 = true ∧
    load_db (save_db (dumpJson (mkDb [[("item_id", .str "I1")]])) .ok true
        ⟨none, none⟩).2 =
      (mkDb [[("item_id", .str "I1")]],
       (save_db (dumpJson (mkDb [[("item_id", .str "I1")]])) .ok true ⟨none, none⟩).2) ∧
    dbItems (mkDb [[("item_id", .str "I1")]]) =
      [[(("item_id" : String), JVal.str "I1")]].map JVal.obj ∧
    (∀ coll2 : List Obj, mkDb coll2 = mkDb [[("item_id", .str "I1")]] →
      coll2 = [[("item_id", .str "I1")]]) :=
  C9_save_then_load_roundtrip [[("item_id", .str "I1")]] ⟨none, none⟩

/-- C10: a create whose body already carries `__backendId` (of any JSON
type) stores and returns that value verbatim: the generator counter is
untouched (the generator is never invoked), the record is appended even
when the identifier already occurs in the Collection (no uniqueness
check), and a caller-supplied `timestamp` is likewise preserved. -/
theorem C10_create_preserves_supplied_fields (items : List Obj) (counter : Nat)
    (inp : PostInput) (v : JVal)
    (h1 : hasField inp.body "item_id" = true)
    (h2 : hasField inp.body "item_name" = true)
    (hid : getField inp.body "__backendId" = some v) (hsave : inp.saveOk = true) :
    ∃ newItem,
      post_handler items counter inp = (.ok (.obj newItem), items ++ [newItem], counter) ∧
      getField newItem "__backendId" = some v ∧
      (∀ w, getField inp.body "timestamp" = some w →
        getField newItem "timestamp" = some w) := by
  have hhas : hasField inp.body "__backendId" = true := by
    simp [hasField, hid]
  unfold post_handler
  rw [h1, h2, hhas, hsave]
  simp only [Bool.not_true, Bool.or_self, Bool.false_eq_true, if_false, if_true]
  by_cases hts : hasField inp.body "timestamp" = true
  · refine ⟨inp.body, ?_, hid, fun w hw => hw⟩
    simp [hts]
  · simp only [Bool.not_eq_true] at hts
    refine ⟨setField inp.body "timestamp" (.num inp.tsec), ?_, ?_, ?_⟩
    · simp [hts]
    · rw [getField_setField_ne _ _ _ _ (by decide)]
      exact hid
    · intro w hw
      rw [hasField, hw] at hts
      simp at hts

/-- C10, witness: the caller-supplied id "dup" is stored verbatim even
though a record with that id is already present. -/
theorem C10_witness :
    hasField [("item_id", JVal.str "I1"), ("item_name", JVal.str "W"),
      ("__backendId", JVal.str "dup")] "item_id" = true ∧
    hasField [("item_id", JVal.str "I1"), ("item_name", JVal.str "W"),
      ("__backendId", JVal.str "dup")] "item_name" = true ∧
    getField [("item_id", JVal.str "I1"), ("item_name", JVal.str "W"),
      ("__backendId", JVal.str "dup")] "__backendId" = some (JVal.str "dup") ∧
    ∃ newItem,
      post_handler [[("__backendId", .str "dup")]] 4
        ⟨[("item_id", .str "I1"), ("item_name", .str "W"),
          ("__backendId", .str "dup")], 9, 11, true⟩ =
        (.ok (.obj newItem), [[("__backendId", .str "dup")]] ++ [newItem], 4) ∧
      getField newItem "__backendId" = some (JVal.str "dup") ∧
      (∀ w, getField ([("item_id", JVal.str "I1"), ("item_name", JVal.str "W"),
          ("__backendId", JVal.str "dup")] : Obj) "timestamp" = some w →
        getField newItem "timestamp" = some w) :=
  ⟨by decide, by decide, by decide,
   C10_create_preserves_supplied_fields [[("__backendId", .str "dup")]] 4
     ⟨[("item_id", .str "I1"), ("item_name", .str "W"),
       ("__backendId", .str "dup")], 9, 11, true⟩
     (JVal.str "dup") (by decide) (by decide) (by decide) rfl⟩

end Warehouse
